import Mathlib

/-!
Verification of the review-response parsing and deduplication/aggregation
pipeline of an AI pull-request review service.

The source is a Python program.  The functions below are shallow embeddings
of the functions of `ai_reviewer.py` and `review_service.py`, built on
executable models of the Python string primitives they use
(`str.split`, `str.strip`, `in`, `str.lower`, `str.upper`).
-/

/-! ## Python string primitives -/

/-- The six ASCII whitespace characters stripped by Python's `str.strip()`. -/
def isPySpace (c : Char) : Bool :=
  c = ' ' || c = '\t' || c = '\n' || c = '\r' || c = '\x0b' || c = '\x0c'

/-- `str.strip()` on a list of characters: drop whitespace at both ends. -/
def pyStrip (l : List Char) : List Char :=
  ((l.dropWhile isPySpace).reverse.dropWhile isPySpace).reverse

/-- `str.strip()` on strings. -/
def pyStripS (s : String) : String := ⟨pyStrip s.data⟩

/-- Worker for Python `str.split(sep)` over character lists.  `skip` counts
characters of a just-matched separator occurrence that remain to be consumed,
so matches never overlap, exactly as in Python. -/
def splitGo (sep : List Char) : List Char → Nat → List (List Char)
  | [], _ => [[]]
  | _ :: rest, skip+1 => splitGo sep rest skip
  | c :: rest, 0 =>
    if sep.isPrefixOf (c :: rest) then
      [] :: splitGo sep rest (sep.length - 1)
    else
      match splitGo sep rest 0 with
      | [] => [[c]]
      | h :: t => (c :: h) :: t

/-- Python `str.split(sep)` over character lists (nonempty separator;
Python raises on an empty separator, which never occurs in this program). -/
def pySplitL (sep s : List Char) : List (List Char) :=
  if sep.isEmpty then [s] else splitGo sep s 0

/-- Python `s.split(sep)` on strings. -/
def pySplit (s sep : String) : List String :=
  (pySplitL sep.data s.data).map (fun l => ⟨l⟩)

/-- Python substring test `sub in s` (for nonempty `sub`):
the split on `sub` has more than one field exactly when `sub` occurs. -/
def pyContains (s sub : String) : Bool :=
  !((pySplitL sub.data s.data).length == 1)

/-- Python `s.startswith(p)`. -/
def pyStartsWith (s p : String) : Bool := p.data.isPrefixOf s.data

/-- Python `str.lower()` (ASCII, as used by the program). -/
def pyLower (s : String) : String := ⟨s.data.map Char.toLower⟩

/-- Python `str.upper()` (ASCII, as used by the program). -/
def pyUpper (s : String) : String := ⟨s.data.map Char.toUpper⟩

/-- `re.search(r"\d+", ...)`: the first contiguous run of decimal digits. -/
def firstDigitRun : List Char → Option (List Char)
  | [] => none
  | c :: rest =>
    if c.isDigit then some (c :: rest.takeWhile Char.isDigit)
    else firstDigitRun rest

/-- Python `int(...)` on a run of decimal digits. -/
def natOfDigits (ds : List Char) : Nat :=
  ds.foldl (fun n c => 10 * n + (c.toNat - 48)) 0

/-! ## `ai_reviewer.py`: language detection -/

/-- The extension→language table of `AIReviewer._detect_language`. -/
def language_map : List (String × String) :=
  [("py", "python"), ("js", "javascript"), ("ts", "typescript"),
   ("java", "java"), ("go", "go"), ("rs", "rust"), ("cpp", "cpp"),
   ("c", "c"), ("cs", "csharp"), ("rb", "ruby"), ("php", "php")]

/-- `AIReviewer._detect_language`: dictionary lookup with default `"text"`. -/
def detect_language (extension : String) : String :=
  (((language_map.find? (fun p => p.1 == pyLower extension)).map (fun p => p.2)).getD "text")

/-- `file_path.split('.')[-1] if '.' in file_path else ''`
(the extension fed to `_detect_language` when building comment text). -/
def fileExtOf (file_path : String) : String :=
  if pyContains file_path "." then (pySplit file_path ".").getLastD "" else ""

/-! ## `ai_reviewer.py`: comment parsing -/

/-- One structured review comment, as built by
`AIReviewer._parse_analysis_to_comments` (the Python dict with keys
`line`, `text`, `severity`, `file_path`). -/
structure ReviewComment where
  line : Nat
  text : String
  severity : String
  file_path : String
deriving DecidableEq, Repr

/-- `parts = line.split('LINE_NUM:')[1].strip()`: the remainder of a
qualifying (already stripped) analysis line after the `LINE_NUM:` marker. -/
def partsOf (rawLine : String) : String :=
  pyStripS ((pySplit (pyStripS rawLine) "LINE_NUM:").getD 1 "")

/-- Issue extraction of `_parse_analysis_to_comments`:
`issue_part = parts.split('|')[0] if '|' in parts else parts` followed by
`issue = issue_part.split(':')[1].strip() if ':' in issue_part else issue_part`. -/
def issueFrom (parts : String) : String :=
  let issue_part := if pyContains parts "|" then (pySplit parts "|").getD 0 "" else parts
  if pyContains issue_part ":" then pyStripS ((pySplit issue_part ":").getD 1 "")
  else issue_part

/-- Solution extraction of `_parse_analysis_to_comments`:
`line.split('Solution:')[1].split('|')[0].strip()` when the marker occurs,
otherwise the empty string. -/
def solutionFrom (line : String) : String :=
  if pyContains line "Solution:" then
    pyStripS ((pySplit ((pySplit line "Solution:").getD 1 "") "|").getD 0 "")
  else ""

/-- Severity extraction of `_parse_analysis_to_comments`:
`severity_part = line.split('Severity:')[1].strip()` then the part before a
following `|` (stripped); default `'medium'` when the marker is absent. -/
def severityFrom (line : String) : String :=
  if pyContains line "Severity:" then
    let severity_part := pyStripS ((pySplit line "Severity:").getD 1 "")
    if pyContains severity_part "|" then pyStripS ((pySplit severity_part "|").getD 0 "")
    else severity_part
  else "medium"

/-- The posted comment text:
`f"**{severity.upper()}**: {issue}"`, plus the suggested-fix block when a
solution was extracted. -/
def commentTextOf (severity issue solution file_path : String) : String :=
  let base := "**" ++ pyUpper severity ++ "**: " ++ issue
  if solution = "" then base
  else
    base ++ "\n\n**Suggested fix:**\n```" ++ detect_language (fileExtOf file_path)
      ++ "\n" ++ solution ++ "\n```"

/-- The dict appended by `_parse_analysis_to_comments` for a surviving line. -/
def mkComment (line_num : Nat) (line parts file_path : String) : ReviewComment :=
  { line := line_num
    text := commentTextOf (severityFrom line) (issueFrom parts) (solutionFrom line) file_path
    severity := pyLower (severityFrom line)
    file_path := file_path }

/-- One iteration of the `for line in analysis_lines` loop of
`AIReviewer._parse_analysis_to_comments`:
strip the line, require the `LINE_NUM:` marker, extract the first digit run
as the line number, drop it when out of `1..numLines`, otherwise build the
comment dict.  Lines that fail any step contribute nothing. -/
def parseOneLine (rawLine : String) (numLines : Nat) (file_path : String) :
    Option ReviewComment :=
  let line := pyStripS rawLine
  if (line == "") || !(pyStartsWith line "LINE_NUM:") then none
  else
    match firstDigitRun (partsOf rawLine).data with
    | none => none
    | some ds =>
      if 1 ≤ natOfDigits ds ∧ natOfDigits ds ≤ numLines then
        some (mkComment (natOfDigits ds) line (partsOf rawLine) file_path)
      else none

/-- `AIReviewer._parse_analysis_to_comments`: split the analysis into lines
and collect the comments the per-line step produces, in order. -/
def parse_analysis_to_comments (analysis content file_path : String) :
    List ReviewComment :=
  let numLines := (pySplit content "\n").length
  (pySplit analysis "\n").filterMap (fun l => parseOneLine l numLines file_path)

/-! ## `ai_reviewer.py`: severity filtering -/

/-- The `severity_map` dict of `AIReviewer._filter_comments`. -/
def severity_map : List (String × Nat) :=
  [("low", 1), ("medium", 2), ("high", 3), ("critical", 4)]

/-- `severity_map.get(s, 2)`. -/
def severityRank (s : String) : Nat :=
  (((severity_map.find? (fun p => p.1 == s)).map (fun p => p.2)).getD 2)

/-- `AIReviewer._filter_comments`: keep the comments whose severity rank
reaches the configured threshold's rank (both defaulting to 2). -/
def filter_comments (comment_threshold : String) (comments : List ReviewComment) :
    List ReviewComment :=
  let threshold := severityRank (pyLower comment_threshold)
  comments.filter (fun c => threshold ≤ severityRank (pyLower c.severity))

/-! ## `ai_reviewer.py`: per-file review -/

/-- `AIReviewer._analyze_code`, with the external model call's outcome as a
parameter: on success the completion text is returned, on failure the
exception is caught and the string `"Error analyzing code: ..."` is
returned instead. -/
def analyze_code (completion : Except String String) : String :=
  match completion with
  | Except.ok analysis => analysis
  | Except.error e => "Error analyzing code: " ++ e

/-- `AIReviewer.review_code` for one file: analyze (never raising), parse,
filter.  `old_content` and `change_type` only shape the prompt sent to the
external model, whose outcome is the `completion` parameter. -/
def review_code (comment_threshold : String) (completion : Except String String)
    (file_path content : String) : List ReviewComment :=
  let analysis := analyze_code completion
  let comments := parse_analysis_to_comments analysis content file_path
  filter_comments comment_threshold comments

/-! ## `review_service.py`: file summary -/

/-- `severity_count[severity] = severity_count.get(severity, 0) + 1`:
increment the entry of `k` in an association list, appending a fresh entry
when the key is absent (Python dict assignment). -/
def bump : List (String × Nat) → String → List (String × Nat)
  | [], k => [(k, 1)]
  | (k', v) :: rest, k =>
    if k = k' then (k', v + 1) :: rest else (k', v) :: bump rest k

/-- The `severity_count` dict of `ReviewService._generate_summary` after the
counting loop, starting from the four zeroed buckets. -/
def severityCounts (comments : List ReviewComment) : List (String × Nat) :=
  comments.foldl (fun d c => bump d c.severity)
    [("low", 0), ("medium", 0), ("high", 0), ("critical", 0)]

/-- Dict read `d[k]` (the four bucket keys are always present;
a missing key reads as 0, matching `dict.get(k, 0)`). -/
def countAt : List (String × Nat) → String → Nat
  | [], _ => 0
  | (k2, v) :: rest, k => if k2 = k then v else countAt rest k

/-- `ReviewService._generate_summary`: heading naming the file, total issue
count, then one line per non-zero bucket in the order
critical, high, medium, low, and a fixed closing line. -/
def generate_summary (file_path : String) (comments : List ReviewComment) : String :=
  let d := severityCounts comments
  let s := "## Review Summary for " ++ file_path ++ "\n\n"
    ++ ("Found " ++ toString comments.length ++ " issues:\n")
  let s := if 0 < countAt d "critical" then
      s ++ ("- 🔴 " ++ toString (countAt d "critical") ++ " critical issues\n") else s
  let s := if 0 < countAt d "high" then
      s ++ ("- ⚠️ " ++ toString (countAt d "high") ++ " high priority issues\n") else s
  let s := if 0 < countAt d "medium" then
      s ++ ("- ℹ️ " ++ toString (countAt d "medium") ++ " medium priority issues\n") else s
  let s := if 0 < countAt d "low" then
      s ++ ("- 💡 " ++ toString (countAt d "low") ++ " low priority suggestions\n") else s
  s ++ "\nPlease review the inline comments for detailed feedback."

/-- The `if len(comments) >= 5` branch of `ReviewService.review_pull_request`
(lines 130-137): the file-level summary posts made for one file, given the
filtered comments returned by `review_code` for that file. -/
def summaryPostsForFile (file_path : String) (comments : List ReviewComment) :
    List String :=
  if 5 ≤ comments.length then [generate_summary file_path comments] else []

/-! ## `review_service.py`: polling driver -/

/-- A pull request as consumed by the driver (repository id and number). -/
structure PullRequest where
  repository_id : String
  pull_request_id : Nat
deriving DecidableEq, Repr

/-- `ReviewService._get_pr_hash`: the MD5 hex digest of
`f"{repository_id}_{pull_request_id}"`.  The digest function itself is
Python library code external to this repository, so it is a parameter. -/
def get_pr_hash (md5hex : String → String) (repository_id : String)
    (pull_request_id : Nat) : String :=
  md5hex (repository_id ++ "_" ++ toString pull_request_id)

/-- The observable state threaded through `process_all_active_prs`:
the in-memory ledger `reviewed_prs`, the requests on which
`review_pull_request` was invoked, the comment-posting calls made,
`processed_count`, and the ledger snapshots persisted by
`_save_reviewed_prs`. -/
structure DriverState where
  reviewed_prs : List String
  reviews : List PullRequest
  posts : List String
  processed_count : Nat
  saves : List (List String)
deriving DecidableEq, Repr

/-- `set.add`: add a hash to the in-memory ledger. -/
def setAdd (l : List String) (x : String) : List String :=
  if x ∈ l then l else l ++ [x]

/-- One iteration of the `for pr in active_prs` loop of
`ReviewService.process_all_active_prs`.  `review pr` is the outcome of
`review_pull_request(pr)`: on success the posting calls it made, on an
exception the posting calls made before raising together with the message
(the exception is caught and logged; nothing is added to the ledger). -/
def processOnePr (md5hex : String → String)
    (review : PullRequest → Except (List String × String) (List String))
    (st : DriverState) (pr : PullRequest) : DriverState :=
  let pr_hash := get_pr_hash md5hex pr.repository_id pr.pull_request_id
  if pr_hash ∈ st.reviewed_prs then st
  else
    match review pr with
    | Except.ok posts =>
      { st with reviews := st.reviews ++ [pr]
                posts := st.posts ++ posts
                reviewed_prs := setAdd st.reviewed_prs pr_hash
                processed_count := st.processed_count + 1 }
    | Except.error err =>
      { st with reviews := st.reviews ++ [pr]
                posts := st.posts ++ err.1 }

/-- `ReviewService.process_all_active_prs` for one polling cycle: fold the
per-request step over the active pull requests starting from the ledger
loaded at cycle start, then persist the ledger exactly once
(`_save_reviewed_prs`). -/
def process_all_active_prs (md5hex : String → String)
    (review : PullRequest → Except (List String × String) (List String))
    (reviewed_prs : List String) (active_prs : List PullRequest) : DriverState :=
  let st := active_prs.foldl (processOnePr md5hex review)
    { reviewed_prs := reviewed_prs, reviews := [], posts := [],
      processed_count := 0, saves := [] }
  { st with saves := st.saves ++ [st.reviewed_prs] }

/-! ## Definitions written from the specification's words
(for comparison with the source-translated definitions above) -/

/-- The severity ranking exactly as the specification words it:
`low=1 < medium=2 < high=3 < critical=4`, any unrecognized value rank 2. -/
def specSeverityRank (s : String) : Nat :=
  if s = "low" then 1
  else if s = "medium" then 2
  else if s = "high" then 3
  else if s = "critical" then 4
  else 2

/-- Claim C8 as stated: the issue description is the first `|`-delimited
segment of the remainder after the marker, with only a leading
`<line>:` prefix (digits immediately followed by a colon) removed when
present, and surrounding whitespace trimmed. -/
def specIssueC8 (parts : String) : String :=
  let seg := (parts.data.takeWhile (fun x => x != '|'))
  let segT := pyStrip seg
  let ds := segT.takeWhile Char.isDigit
  if ds ≠ [] ∧ (segT.drop ds.length).head? = some ':' then
    pyStripS ⟨(segT.drop ds.length).drop 1⟩
  else pyStripS ⟨segT⟩

/-- The amended issue-extraction rule, stated independently of `pySplit` by
character scanning: within the first `|`-delimited segment, when a colon is
present the description is the text strictly between the first and the
second colon, trimmed; otherwise the whole segment, verbatim. -/
def specIssueAmended (parts : String) : String :=
  let seg := (parts.data.takeWhile (fun x => x != '|'))
  if ':' ∈ seg then
    pyStripS ⟨((seg.dropWhile (fun x => x != ':')).drop 1).takeWhile (fun x => x != ':')⟩
  else ⟨seg⟩

/-- The number of comments carrying exactly the stored severity `k`. -/
def countSev (k : String) (comments : List ReviewComment) : Nat :=
  (comments.filter (fun c => c.severity == k)).length

/-- The file summary exactly as the specification words it: a heading naming
the file, the total issue count, one line per non-zero severity bucket in
the order critical, high, medium, low, and the fixed closing line. -/
def specFileSummary (file_path : String) (total crit hi med lo : Nat) : String :=
  "## Review Summary for " ++ file_path ++ "\n\n"
    ++ ("Found " ++ toString total ++ " issues:\n")
    ++ (if 0 < crit then "- 🔴 " ++ toString crit ++ " critical issues\n" else "")
    ++ (if 0 < hi then "- ⚠️ " ++ toString hi ++ " high priority issues\n" else "")
    ++ (if 0 < med then "- ℹ️ " ++ toString med ++ " medium priority issues\n" else "")
    ++ (if 0 < lo then "- 💡 " ++ toString lo ++ " low priority suggestions\n" else "")
    ++ "\nPlease review the inline comments for detailed feedback."

/-- Single-character split, the specification-level counterpart of
`splitGo` for one-character separators (used to relate the Python split to
character scanning). -/
def splitChar (c : Char) : List Char → List (List Char)
  | [] => [[]]
  | x :: xs =>
    if x = c then [] :: splitChar c xs
    else
      match splitChar c xs with
      | [] => [[x]]
      | h :: t => (x :: h) :: t

/-! ## Helper lemmas about single-character splits -/

theorem splitChar_ne_nil (c : Char) (l : List Char) : splitChar c l ≠ [] := by
  induction l with
  | nil => simp [splitChar]
  | cons x xs ih =>
    by_cases h : x = c
    · simp [splitChar, h]
    · simp only [splitChar, if_neg h]
      cases hs : splitChar c xs with
      | nil => exact absurd hs ih
      | cons a t => simp

theorem splitGo_single (c : Char) (l : List Char) : splitGo [c] l 0 = splitChar c l := by
  induction l with
  | nil => rfl
  | cons x xs ih =>
    by_cases h : x = c
    · subst h
      simp [splitGo, splitChar, List.isPrefixOf, ih]
    · have hb : (c == x) = false := beq_eq_false_iff_ne.mpr (Ne.symm h)
      simp [splitGo, splitChar, List.isPrefixOf, hb, h, ih]

theorem splitChar_head (c : Char) (l : List Char) :
    (splitChar c l).getD 0 [] = l.takeWhile (fun x => x != c) := by
  induction l with
  | nil => rfl
  | cons x xs ih =>
    by_cases h : x = c
    · subst h
      simp [splitChar, List.takeWhile_cons]
    · simp only [splitChar, if_neg h]
      cases hs : splitChar c xs with
      | nil => exact absurd hs (splitChar_ne_nil c xs)
      | cons a t =>
        rw [hs] at ih
        simp only [List.getD_cons_zero] at ih
        have hne : (x != c) = true := bne_iff_ne.mpr h
        simp [List.takeWhile_cons, hne, ih]

theorem splitChar_eq_single (c : Char) (l : List Char) (h : c ∉ l) : splitChar c l = [l] := by
  induction l with
  | nil => rfl
  | cons x xs ih =>
    have hx : ¬ x = c := fun he => h (List.mem_cons.mpr (Or.inl he.symm))
    have hxs : c ∉ xs := fun hc => h (List.mem_cons_of_mem _ hc)
    simp only [splitChar, if_neg hx, ih hxs]

theorem splitChar_length_of_mem (c : Char) (l : List Char) (h : c ∈ l) :
    2 ≤ (splitChar c l).length := by
  induction l with
  | nil => cases h
  | cons x xs ih =>
    by_cases hx : x = c
    · simp only [splitChar, if_pos hx, List.length_cons]
      have h0 : 0 < (splitChar c xs).length :=
        List.length_pos.mpr (splitChar_ne_nil c xs)
      omega
    · have hxs : c ∈ xs := by
        rcases List.mem_cons.mp h with he | hm
        · exact absurd he.symm hx
        · exact hm
      simp only [splitChar, if_neg hx]
      cases hs : splitChar c xs with
      | nil => exact absurd hs (splitChar_ne_nil c xs)
      | cons a t =>
        have h2 := ih hxs
        rw [hs] at h2
        simpa using h2

theorem splitChar_getD_one (c : Char) (l : List Char) (h : c ∈ l) :
    (splitChar c l).getD 1 [] =
      ((l.dropWhile (fun x => x != c)).drop 1).takeWhile (fun x => x != c) := by
  induction l with
  | nil => cases h
  | cons x xs ih =>
    by_cases hx : x = c
    · subst hx
      have hne : (x != x) = false := by simp
      simp only [splitChar, if_pos rfl, List.getD_cons_succ, List.dropWhile_cons, hne,
        Bool.false_eq_true, if_false, List.drop_succ_cons, List.drop_zero]
      exact splitChar_head x xs
    · have hxs : c ∈ xs := by
        rcases List.mem_cons.mp h with he | hm
        · exact absurd he.symm hx
        · exact hm
      have hne : (x != c) = true := bne_iff_ne.mpr hx
      simp only [splitChar, if_neg hx]
      cases hs : splitChar c xs with
      | nil => exact absurd hs (splitChar_ne_nil c xs)
      | cons a t =>
        have hih := ih hxs
        rw [hs] at hih
        simp only [List.getD_cons_succ] at hih ⊢
        simp only [List.dropWhile_cons, hne, if_true]
        exact hih

theorem pyContains_single (s sub : String) (c : Char) (hsub : sub.data = [c]) :
    pyContains s sub = true ↔ c ∈ s.data := by
  unfold pyContains pySplitL
  rw [hsub]
  simp only [List.isEmpty, Bool.false_eq_true, if_false, splitGo_single,
    Bool.not_eq_true', beq_eq_false_iff_ne, ne_eq]
  constructor
  · intro h
    by_contra hc
    rw [splitChar_eq_single c _ hc] at h
    simp at h
  · intro h hlen
    have h2 := splitChar_length_of_mem c _ h
    omega

theorem pyContains_single_false (s sub : String) (c : Char) (hsub : sub.data = [c])
    (h : c ∉ s.data) : pyContains s sub = false := by
  by_contra hb
  have : pyContains s sub = true := by
    cases hx : pyContains s sub
    · exact absurd hx hb
    · rfl
  exact h ((pyContains_single s sub c hsub).mp this)

theorem pySplit_single_getD0 (s sub : String) (c : Char) (hsub : sub.data = [c]) :
    (pySplit s sub).getD 0 "" = ⟨s.data.takeWhile (fun x => x != c)⟩ := by
  unfold pySplit pySplitL
  rw [hsub]
  simp only [List.isEmpty, Bool.false_eq_true, if_false, splitGo_single]
  have hh := splitChar_head c s.data
  cases hs : splitChar c s.data with
  | nil => exact absurd hs (splitChar_ne_nil c s.data)
  | cons a t =>
    rw [hs] at hh
    simp only [List.getD_cons_zero] at hh
    simp [hh]

theorem pySplit_single_getD1 (s sub : String) (c : Char) (hsub : sub.data = [c])
    (h : c ∈ s.data) :
    (pySplit s sub).getD 1 "" =
      ⟨((s.data.dropWhile (fun x => x != c)).drop 1).takeWhile (fun x => x != c)⟩ := by
  unfold pySplit pySplitL
  rw [hsub]
  simp only [List.isEmpty, Bool.false_eq_true, if_false, splitGo_single]
  have hg := splitChar_getD_one c s.data h
  have h2 := splitChar_length_of_mem c s.data h
  cases hs : splitChar c s.data with
  | nil => exact absurd hs (splitChar_ne_nil c s.data)
  | cons a t =>
    cases t with
    | nil => rw [hs] at h2; simp at h2
    | cons b t2 =>
      rw [hs] at hg
      simp only [List.getD_cons_succ, List.getD_cons_zero] at hg
      simp [hg]

theorem splitChar_not_mem (c : Char) (s : String) (h : c ∉ s.data) :
    pySplitL [c] s.data = [s.data] := by
  unfold pySplitL
  simp only [List.isEmpty, Bool.false_eq_true, if_false, splitGo_single]
  exact splitChar_eq_single c _ h

/-! ## Helper lemmas about `pyStrip` -/

theorem dropWhile_append_singleton (p : Char → Bool) (c : Char) (hc : p c = false) :
    ∀ xs : List Char, ∃ ys, (xs ++ [c]).dropWhile p = ys ++ [c] := by
  intro xs
  induction xs with
  | nil => exact ⟨[], by simp [List.dropWhile_cons, hc]⟩
  | cons x t ih =>
    by_cases hx : p x = true
    · obtain ⟨ys, hys⟩ := ih
      exact ⟨ys, by simp [List.dropWhile_cons, hx, hys]⟩
    · have hx2 : p x = false := by
        cases hpx : p x
        · rfl
        · exact absurd hpx hx
      exact ⟨x :: t, by simp [List.dropWhile_cons, hx2]⟩

theorem pyStrip_cons_of_not_space (c : Char) (l : List Char) (hc : isPySpace c = false) :
    ∃ t, pyStrip (c :: l) = c :: t := by
  unfold pyStrip
  rw [List.dropWhile_cons, hc]
  simp only [Bool.false_eq_true, if_false, List.reverse_cons]
  obtain ⟨ys, hys⟩ := dropWhile_append_singleton isPySpace c hc l.reverse
  rw [hys, List.reverse_append]
  exact ⟨ys.reverse, rfl⟩

/-! ## Inversion of the per-line parser -/

theorem parseOneLine_inv {rawLine : String} {numLines : Nat} {fp : String}
    {c : ReviewComment} (h : parseOneLine rawLine numLines fp = some c) :
    ∃ ds, firstDigitRun (partsOf rawLine).data = some ds ∧
      1 ≤ natOfDigits ds ∧ natOfDigits ds ≤ numLines ∧
      c = mkComment (natOfDigits ds) (pyStripS rawLine) (partsOf rawLine) fp := by
  simp only [parseOneLine] at h
  split at h
  · exact absurd h (by simp)
  · split at h
    · exact absurd h (by simp)
    · next ds hds =>
      split at h
      · next hrange =>
        exact ⟨ds, hds, hrange.1, hrange.2, (Option.some.inj h).symm⟩
      · exact absurd h (by simp)

theorem parseOneLine_out_of_range (rawLine : String) (numLines : Nat) (fp : String)
    (ds : List Char) (hds : firstDigitRun (partsOf rawLine).data = some ds)
    (hout : natOfDigits ds < 1 ∨ numLines < natOfDigits ds) :
    parseOneLine rawLine numLines fp = none := by
  simp only [parseOneLine]
  split
  · rfl
  · rw [hds]
    have hno : ¬ (1 ≤ natOfDigits ds ∧ natOfDigits ds ≤ numLines) := by omega
    simp [hno]

/-! ## The issue extraction, characterized by character scanning -/

theorem issueFrom_eq_amended (parts : String) : issueFrom parts = specIssueAmended parts := by
  unfold issueFrom specIssueAmended
  by_cases hp : pyContains parts "|" = true
  · rw [if_pos hp, pySplit_single_getD0 parts "|" '|' rfl]
    by_cases hc : ':' ∈ parts.data.takeWhile (fun x => x != '|')
    · have hpc : pyContains ⟨parts.data.takeWhile (fun x => x != '|')⟩ ":" = true :=
        (pyContains_single _ ":" ':' rfl).mpr hc
      rw [if_pos hpc, if_pos hc,
        pySplit_single_getD1 ⟨parts.data.takeWhile (fun x => x != '|')⟩ ":" ':' rfl hc]
    · have hpc := pyContains_single_false ⟨parts.data.takeWhile (fun x => x != '|')⟩ ":" ':' rfl hc
      rw [if_neg (by simp [hpc]), if_neg hc]
  · have hmem : '|' ∉ parts.data := fun hm => hp ((pyContains_single parts "|" '|' rfl).mpr hm)
    have htw : parts.data.takeWhile (fun x => x != '|') = parts.data :=
      List.takeWhile_eq_self_iff.mpr (fun a ha => bne_iff_ne.mpr (fun he => hmem (he ▸ ha)))
    rw [if_neg hp, htw]
    by_cases hc : ':' ∈ parts.data
    · have hpc : pyContains parts ":" = true := (pyContains_single parts ":" ':' rfl).mpr hc
      rw [if_pos hpc, if_pos hc, pySplit_single_getD1 parts ":" ':' rfl hc]
    · have hpc := pyContains_single_false parts ":" ':' rfl hc
      rw [if_neg (by simp [hpc]), if_neg hc]

/-! ## Shape of constructed comment text -/

theorem commentTextOf_head (severity issue solution file_path : String) :
    ∃ t, (commentTextOf severity issue solution file_path).data = '*' :: '*' :: t := by
  unfold commentTextOf
  split
  · rw [String.data_append, String.data_append, String.data_append]
    exact ⟨_, rfl⟩
  · rw [String.data_append, String.data_append, String.data_append, String.data_append,
      String.data_append, String.data_append, String.data_append, String.data_append]
    exact ⟨_, rfl⟩

theorem commentTextOf_ne_empty (severity issue solution file_path : String) :
    commentTextOf severity issue solution file_path ≠ "" := by
  obtain ⟨t, ht⟩ := commentTextOf_head severity issue solution file_path
  intro he
  rw [he] at ht
  exact List.noConfusion ht

theorem commentTextOf_starts (severity issue solution file_path : String) :
    pyStartsWith (commentTextOf severity issue solution file_path) "**" = true := by
  obtain ⟨t, ht⟩ := commentTextOf_head severity issue solution file_path
  unfold pyStartsWith
  rw [ht, show "**".data = ['*', '*'] from rfl]
  simp [List.isPrefixOf]

/-! ## Severity ranking -/

theorem severityRank_eq_spec (s : String) : severityRank s = specSeverityRank s := by
  unfold severityRank severity_map specSeverityRank
  by_cases h1 : s = "low"
  · subst h1; rfl
  by_cases h2 : s = "medium"
  · subst h2; rfl
  by_cases h3 : s = "high"
  · subst h3; rfl
  by_cases h4 : s = "critical"
  · subst h4; rfl
  have b1 : ("low" == s) = false := beq_eq_false_iff_ne.mpr (Ne.symm h1)
  have b2 : ("medium" == s) = false := beq_eq_false_iff_ne.mpr (Ne.symm h2)
  have b3 : ("high" == s) = false := beq_eq_false_iff_ne.mpr (Ne.symm h3)
  have b4 : ("critical" == s) = false := beq_eq_false_iff_ne.mpr (Ne.symm h4)
  simp [List.find?, b1, b2, b3, b4, h1, h2, h3, h4]

theorem filter_length_mono {α : Type} (p q : α → Bool) (l : List α)
    (h : ∀ a, p a = true → q a = true) :
    (l.filter p).length ≤ (l.filter q).length := by
  induction l with
  | nil => simp
  | cons x xs ih =>
    by_cases hx : p x = true
    · rw [List.filter_cons, if_pos hx, List.filter_cons, if_pos (h x hx)]
      simpa using ih
    · rw [List.filter_cons, if_neg hx, List.filter_cons]
      split
      · exact le_trans ih (by simp)
      · exact ih

/-! ## The analysis built from a failed model call parses to nothing -/

theorem pySplit_no_newline (s : String) (h : '\n' ∉ s.data) : pySplit s "\n" = [s] := by
  unfold pySplit
  rw [show ("\n".data : List Char) = ['\n'] from rfl, splitChar_not_mem '\n' s h]
  rfl

theorem pyStartsWith_errorHead {t : List Char} :
    pyStartsWith ⟨'E' :: t⟩ "LINE_NUM:" = false := by
  unfold pyStartsWith
  rw [show "LINE_NUM:".data = 'L' :: "INE_NUM:".data from rfl]
  simp only [List.isPrefixOf, show ('L' == 'E') = false from rfl, Bool.false_and]

theorem parseOneLine_not_marker (rawLine : String) (n : Nat) (fp : String)
    (h : pyStartsWith (pyStripS rawLine) "LINE_NUM:" = false) :
    parseOneLine rawLine n fp = none := by
  simp [parseOneLine, h]

theorem parse_error_string (e fp content : String) (h : '\n' ∉ e.data) :
    parse_analysis_to_comments ("Error analyzing code: " ++ e) content fp = [] := by
  unfold parse_analysis_to_comments
  have hmem : '\n' ∉ ("Error analyzing code: " ++ e).data := by
    rw [String.data_append]
    intro hm
    rcases List.mem_append.mp hm with h1 | h2
    · exact absurd h1 (by decide)
    · exact h h2
  rw [pySplit_no_newline _ hmem]
  have hdata : ("Error analyzing code: " ++ e).data
      = 'E' :: ("rror analyzing code: ".data ++ e.data) := by
    rw [String.data_append]
    rfl
  have hE : isPySpace 'E' = false := rfl
  obtain ⟨t, ht⟩ := pyStrip_cons_of_not_space 'E' ("rror analyzing code: ".data ++ e.data) hE
  have hstrip : pyStripS ("Error analyzing code: " ++ e) = ⟨'E' :: t⟩ := by
    unfold pyStripS
    rw [hdata, ht]
  have hnone : parseOneLine ("Error analyzing code: " ++ e) (pySplit content "\n").length fp = none := by
    apply parseOneLine_not_marker
    rw [hstrip]
    exact pyStartsWith_errorHead
  simp [List.filterMap, hnone]

/-! ## Driver invariants -/

theorem processOnePr_skip (md5hex : String → String)
    (review : PullRequest → Except (List String × String) (List String))
    (st : DriverState) (pr : PullRequest)
    (h : get_pr_hash md5hex pr.repository_id pr.pull_request_id ∈ st.reviewed_prs) :
    processOnePr md5hex review st pr = st := by
  unfold processOnePr
  rw [if_pos h]

theorem processOnePr_reviewed_mono (md5hex : String → String)
    (review : PullRequest → Except (List String × String) (List String))
    (st : DriverState) (pr : PullRequest) (a : String) (h : a ∈ st.reviewed_prs) :
    a ∈ (processOnePr md5hex review st pr).reviewed_prs := by
  by_cases hin : get_pr_hash md5hex pr.repository_id pr.pull_request_id ∈ st.reviewed_prs
  · rw [processOnePr_skip md5hex review st pr hin]
    exact h
  · cases hrev : review pr with
    | ok posts =>
      simp only [processOnePr, hrev]
      rw [if_neg hin]
      show a ∈ setAdd st.reviewed_prs _
      unfold setAdd
      split
      · exact h
      · exact List.mem_append.mpr (Or.inl h)
    | error err =>
      simp only [processOnePr, hrev]
      rw [if_neg hin]
      exact h

theorem foldl_reviewed_mono (md5hex : String → String)
    (review : PullRequest → Except (List String × String) (List String))
    (l : List PullRequest) (st : DriverState) (a : String) (h : a ∈ st.reviewed_prs) :
    a ∈ (l.foldl (processOnePr md5hex review) st).reviewed_prs := by
  induction l generalizing st with
  | nil => exact h
  | cons x xs ih => exact ih _ (processOnePr_reviewed_mono md5hex review st x a h)

theorem processOnePr_reviews_mono (md5hex : String → String)
    (review : PullRequest → Except (List String × String) (List String))
    (st : DriverState) (pr : PullRequest) (q : PullRequest) (h : q ∈ st.reviews) :
    q ∈ (processOnePr md5hex review st pr).reviews := by
  by_cases hin : get_pr_hash md5hex pr.repository_id pr.pull_request_id ∈ st.reviewed_prs
  · rw [processOnePr_skip md5hex review st pr hin]
    exact h
  · cases hrev : review pr with
    | ok posts =>
      simp only [processOnePr, hrev]
      rw [if_neg hin]
      exact List.mem_append.mpr (Or.inl h)
    | error err =>
      simp only [processOnePr, hrev]
      rw [if_neg hin]
      exact List.mem_append.mpr (Or.inl h)

theorem foldl_reviews_mono (md5hex : String → String)
    (review : PullRequest → Except (List String × String) (List String))
    (l : List PullRequest) (st : DriverState) (q : PullRequest) (h : q ∈ st.reviews) :
    q ∈ (l.foldl (processOnePr md5hex review) st).reviews := by
  induction l generalizing st with
  | nil => exact h
  | cons x xs ih => exact ih _ (processOnePr_reviews_mono md5hex review st x q h)

theorem processOnePr_saves (md5hex : String → String)
    (review : PullRequest → Except (List String × String) (List String))
    (st : DriverState) (pr : PullRequest) :
    (processOnePr md5hex review st pr).saves = st.saves := by
  by_cases hin : get_pr_hash md5hex pr.repository_id pr.pull_request_id ∈ st.reviewed_prs
  · rw [processOnePr_skip md5hex review st pr hin]
  · cases hrev : review pr with
    | ok posts =>
      simp only [processOnePr, hrev]
      rw [if_neg hin]
    | error err =>
      simp only [processOnePr, hrev]
      rw [if_neg hin]

theorem foldl_saves (md5hex : String → String)
    (review : PullRequest → Except (List String × String) (List String))
    (l : List PullRequest) (st : DriverState) :
    (l.foldl (processOnePr md5hex review) st).saves = st.saves := by
  induction l generalizing st with
  | nil => rfl
  | cons x xs ih =>
    rw [List.foldl_cons, ih, processOnePr_saves]

theorem processOnePr_reviews_origin (md5hex : String → String)
    (review : PullRequest → Except (List String × String) (List String))
    (st : DriverState) (pr : PullRequest) (q : PullRequest)
    (h : q ∈ (processOnePr md5hex review st pr).reviews) :
    q ∈ st.reviews ∨ q = pr := by
  by_cases hin : get_pr_hash md5hex pr.repository_id pr.pull_request_id ∈ st.reviewed_prs
  · rw [processOnePr_skip md5hex review st pr hin] at h
    exact Or.inl h
  · cases hrev : review pr with
    | ok posts =>
      simp only [processOnePr, hrev] at h
      rw [if_neg hin] at h
      rcases List.mem_append.mp h with ha | hb
      · exact Or.inl ha
      · exact Or.inr (List.mem_singleton.mp hb)
    | error err =>
      simp only [processOnePr, hrev] at h
      rw [if_neg hin] at h
      rcases List.mem_append.mp h with ha | hb
      · exact Or.inl ha
      · exact Or.inr (List.mem_singleton.mp hb)

theorem foldl_reviews_origin (md5hex : String → String)
    (review : PullRequest → Except (List String × String) (List String))
    (l : List PullRequest) (st : DriverState) (q : PullRequest)
    (h : q ∈ (l.foldl (processOnePr md5hex review) st).reviews) :
    q ∈ st.reviews ∨ q ∈ l := by
  induction l generalizing st with
  | nil => exact Or.inl h
  | cons x xs ih =>
    rw [List.foldl_cons] at h
    rcases ih _ h with h1 | h2
    · rcases processOnePr_reviews_origin md5hex review st x q h1 with ha | hb
      · exact Or.inl ha
      · exact Or.inr (List.mem_cons.mpr (Or.inl hb))
    · exact Or.inr (List.mem_cons_of_mem _ h2)

theorem foldl_filter_skip (md5hex : String → String)
    (review : PullRequest → Except (List String × String) (List String))
    (pr : PullRequest) (l : List PullRequest) (st : DriverState)
    (h : get_pr_hash md5hex pr.repository_id pr.pull_request_id ∈ st.reviewed_prs) :
    l.foldl (processOnePr md5hex review) st
      = (l.filter (fun q => q != pr)).foldl (processOnePr md5hex review) st := by
  induction l generalizing st with
  | nil => rfl
  | cons x xs ih =>
    by_cases hx : x = pr
    · subst hx
      rw [List.filter_cons]
      simp only [bne_self_eq_false, Bool.false_eq_true, if_false]
      rw [List.foldl_cons, processOnePr_skip md5hex review st x h]
      exact ih st h
    · rw [List.filter_cons]
      simp only [bne_iff_ne.mpr hx, if_true]
      rw [List.foldl_cons, List.foldl_cons]
      exact ih _ (processOnePr_reviewed_mono md5hex review st x _ h)

theorem foldl_added_of_ok (md5hex : String → String)
    (review : PullRequest → Except (List String × String) (List String))
    (l : List PullRequest) (st : DriverState) (pr : PullRequest) (cs : List String)
    (hmem : pr ∈ l) (hok : review pr = Except.ok cs) :
    get_pr_hash md5hex pr.repository_id pr.pull_request_id
      ∈ (l.foldl (processOnePr md5hex review) st).reviewed_prs := by
  induction l generalizing st with
  | nil => cases hmem
  | cons x xs ih =>
    rw [List.foldl_cons]
    rcases List.mem_cons.mp hmem with he | hm
    · subst he
      apply foldl_reviewed_mono
      by_cases hin : get_pr_hash md5hex pr.repository_id pr.pull_request_id ∈ st.reviewed_prs
      · rw [processOnePr_skip md5hex review st pr hin]
        exact hin
      · simp only [processOnePr, hok]
        rw [if_neg hin]
        show _ ∈ setAdd st.reviewed_prs _
        unfold setAdd
        split
        · next hin2 => exact hin2
        · exact List.mem_append.mpr (Or.inr (List.mem_singleton.mpr rfl))
    · exact ih _ hm

theorem processOnePr_not_added (md5hex : String → String)
    (review : PullRequest → Except (List String × String) (List String))
    (st : DriverState) (x : PullRequest) (a : String) (h : a ∉ st.reviewed_prs)
    (hx : get_pr_hash md5hex x.repository_id x.pull_request_id = a →
      (review x).isOk = false) :
    a ∉ (processOnePr md5hex review st x).reviewed_prs := by
  by_cases hin : get_pr_hash md5hex x.repository_id x.pull_request_id ∈ st.reviewed_prs
  · rw [processOnePr_skip md5hex review st x hin]
    exact h
  · cases hrev : review x with
    | ok posts =>
      by_cases hgx : get_pr_hash md5hex x.repository_id x.pull_request_id = a
      · have := hx hgx
        rw [hrev] at this
        exact absurd this (by simp [Except.isOk, Except.toBool])
      · simp only [processOnePr, hrev]
        rw [if_neg hin]
        show a ∉ setAdd st.reviewed_prs _
        unfold setAdd
        split
        · exact h
        · intro hmem
          rcases List.mem_append.mp hmem with h1 | h2
          · exact h h1
          · exact hgx (List.mem_singleton.mp h2).symm
    | error err =>
      simp only [processOnePr, hrev]
      rw [if_neg hin]
      exact h

theorem foldl_not_added (md5hex : String → String)
    (review : PullRequest → Except (List String × String) (List String))
    (l : List PullRequest) (st : DriverState) (a : String) (h : a ∉ st.reviewed_prs)
    (herr : ∀ q ∈ l, get_pr_hash md5hex q.repository_id q.pull_request_id = a →
      (review q).isOk = false) :
    a ∉ (l.foldl (processOnePr md5hex review) st).reviewed_prs := by
  induction l generalizing st with
  | nil => exact h
  | cons x xs ih =>
    rw [List.foldl_cons]
    apply ih
    · exact processOnePr_not_added md5hex review st x a h
        (herr x (List.mem_cons_self x xs))
    · intro q hq
      exact herr q (List.mem_cons_of_mem _ hq)

theorem foldl_reviews_of_fresh (md5hex : String → String)
    (review : PullRequest → Except (List String × String) (List String))
    (l : List PullRequest) (st : DriverState) (q : PullRequest)
    (hq : q ∈ l)
    (hfresh : get_pr_hash md5hex q.repository_id q.pull_request_id ∉ st.reviewed_prs)
    (huniq : ∀ p ∈ l, get_pr_hash md5hex p.repository_id p.pull_request_id
      = get_pr_hash md5hex q.repository_id q.pull_request_id → p = q) :
    q ∈ (l.foldl (processOnePr md5hex review) st).reviews := by
  induction l generalizing st with
  | nil => cases hq
  | cons x xs ih =>
    rw [List.foldl_cons]
    by_cases hx : x = q
    · subst hx
      apply foldl_reviews_mono
      cases hrev : review x with
      | ok posts =>
        simp only [processOnePr, hrev]
        rw [if_neg hfresh]
        exact List.mem_append.mpr (Or.inr (List.mem_singleton.mpr rfl))
      | error err =>
        simp only [processOnePr, hrev]
        rw [if_neg hfresh]
        exact List.mem_append.mpr (Or.inr (List.mem_singleton.mpr rfl))
    · have hq2 : q ∈ xs := by
        rcases List.mem_cons.mp hq with he | hm
        · exact absurd he.symm hx
        · exact hm
      have hne : get_pr_hash md5hex x.repository_id x.pull_request_id
          ≠ get_pr_hash md5hex q.repository_id q.pull_request_id :=
        fun hgg => hx (huniq x (List.mem_cons_self x xs) hgg)
      refine ih _ hq2 ?_ ?_
      · by_cases hin : get_pr_hash md5hex x.repository_id x.pull_request_id ∈ st.reviewed_prs
        · rw [processOnePr_skip md5hex review st x hin]
          exact hfresh
        · cases hrev : review x with
          | ok posts =>
            simp only [processOnePr, hrev]
            rw [if_neg hin]
            show _ ∉ setAdd st.reviewed_prs _
            unfold setAdd
            split
            · exact hfresh
            · intro hmem
              rcases List.mem_append.mp hmem with h1 | h2
              · exact hfresh h1
              · exact hne (List.mem_singleton.mp h2).symm
          | error err =>
            simp only [processOnePr, hrev]
            rw [if_neg hin]
            exact hfresh
      · intro p hp
        exact huniq p (List.mem_cons_of_mem _ hp)

/-! ## Counting lemmas for the file summary -/

theorem countAt_bump (d : List (String × Nat)) (s k : String) :
    countAt (bump d s) k = countAt d k + (if s = k then 1 else 0) := by
  induction d with
  | nil =>
    simp only [bump, countAt]
    by_cases h : s = k
    · simp [h]
    · simp [h]
  | cons p rest ih =>
    obtain ⟨k2, v⟩ := p
    by_cases h : s = k2
    · subst h
      simp only [bump, if_pos rfl, countAt]
      by_cases hk : s = k
      · simp [hk]
      · simp [hk]
    · simp only [bump, if_neg h, countAt]
      by_cases hk : k2 = k
      · have hs : ¬ s = k := fun hsk => h (hsk.trans hk.symm)
        simp [countAt, hk, hs]
      · simp [hk, ih]

theorem countAt_fold (comments : List ReviewComment) (d : List (String × Nat)) (k : String) :
    countAt (comments.foldl (fun d c => bump d c.severity) d) k
      = countAt d k + countSev k comments := by
  induction comments generalizing d with
  | nil => simp [countSev]
  | cons c cs ih =>
    rw [List.foldl_cons, ih, countAt_bump]
    unfold countSev
    rw [List.filter_cons]
    by_cases h : c.severity = k
    · have hb : (c.severity == k) = true := beq_iff_eq.mpr h
      simp only [hb, if_true, List.length_cons, if_pos h]
      omega
    · have hb : (c.severity == k) = false := beq_eq_false_iff_ne.mpr h
      simp only [hb, Bool.false_eq_true, if_false, if_neg h]
      omega

theorem countAt_severityCounts (comments : List ReviewComment) (k : String)
    (h0 : countAt [("low", 0), ("medium", 0), ("high", 0), ("critical", 0)] k = 0) :
    countAt (severityCounts comments) k = countSev k comments := by
  unfold severityCounts
  rw [countAt_fold, h0, Nat.zero_add]

theorem ite_append (b : Prop) [Decidable b] (s t : String) :
    (if b then s ++ t else s) = s ++ (if b then t else "") := by
  split
  · rfl
  · rw [String.append_empty]

theorem generate_summary_eq_spec (fp : String) (comments : List ReviewComment) :
    generate_summary fp comments
      = specFileSummary fp comments.length (countSev "critical" comments)
          (countSev "high" comments) (countSev "medium" comments)
          (countSev "low" comments) := by
  simp only [generate_summary, specFileSummary]
  rw [countAt_severityCounts comments "critical" rfl,
    countAt_severityCounts comments "high" rfl,
    countAt_severityCounts comments "medium" rfl,
    countAt_severityCounts comments "low" rfl]
  simp only [ite_append]

/-! ## Small bridging lemmas for the claim theorems -/

theorem pyLower_mem_four (T : String)
    (hT : T ∈ (["low", "medium", "high", "critical"] : List String)) : pyLower T = T := by
  simp only [List.mem_cons, List.not_mem_nil, or_false] at hT
  rcases hT with h | h | h | h <;> subst h <;> decide

theorem filter_comments_eq_spec (T : String) (hT : pyLower T = T)
    (comments : List ReviewComment) :
    filter_comments T comments
      = comments.filter (fun c => specSeverityRank T ≤ specSeverityRank (pyLower c.severity)) := by
  simp only [filter_comments, severityRank_eq_spec, hT]

/-! ## Claim theorems -/

/-- C3: for every threshold among low/medium/high/critical, the severity
filter returns exactly the order-preserving subsequence of comments whose
severity rank (low=1, medium=2, high=3, critical=4, unrecognized=2) reaches
the threshold's rank, and raising the threshold never increases the size of
the result. -/
theorem claim_C3_severity_filter (T : String)
    (hT : T ∈ (["low", "medium", "high", "critical"] : List String))
    (comments : List ReviewComment) :
    filter_comments T comments
      = comments.filter (fun c => specSeverityRank T ≤ specSeverityRank (pyLower c.severity))
    ∧ List.Sublist (filter_comments T comments) comments
    ∧ ∀ T2, T2 ∈ (["low", "medium", "high", "critical"] : List String) →
        specSeverityRank T ≤ specSeverityRank T2 →
        (filter_comments T2 comments).length ≤ (filter_comments T comments).length := by
  have hTl := pyLower_mem_four T hT
  refine ⟨filter_comments_eq_spec T hTl comments, ?_, ?_⟩
  · rw [filter_comments_eq_spec T hTl comments]
    exact List.filter_sublist comments
  · intro T2 hT2 hle
    have hT2l := pyLower_mem_four T2 hT2
    rw [filter_comments_eq_spec T hTl comments, filter_comments_eq_spec T2 hT2l comments]
    apply filter_length_mono
    intro c hc
    simp only [decide_eq_true_eq] at hc ⊢
    exact le_trans hle hc

/-- C3 witness: concrete instance with threshold medium and a raise to high. -/
theorem claim_C3_severity_filter_witness :
    filter_comments "medium"
        [⟨1, "t", "low", "f"⟩, ⟨2, "t", "medium", "f"⟩, ⟨3, "t", "weird", "f"⟩, ⟨4, "t", "critical", "f"⟩]
      = ([⟨1, "t", "low", "f"⟩, ⟨2, "t", "medium", "f"⟩, ⟨3, "t", "weird", "f"⟩, ⟨4, "t", "critical", "f"⟩] :
          List ReviewComment).filter
          (fun c => specSeverityRank "medium" ≤ specSeverityRank (pyLower c.severity))
    ∧ List.Sublist (filter_comments "medium"
        [⟨1, "t", "low", "f"⟩, ⟨2, "t", "medium", "f"⟩, ⟨3, "t", "weird", "f"⟩, ⟨4, "t", "critical", "f"⟩])
        [⟨1, "t", "low", "f"⟩, ⟨2, "t", "medium", "f"⟩, ⟨3, "t", "weird", "f"⟩, ⟨4, "t", "critical", "f"⟩]
    ∧ (filter_comments "high"
        [⟨1, "t", "low", "f"⟩, ⟨2, "t", "medium", "f"⟩, ⟨3, "t", "weird", "f"⟩, ⟨4, "t", "critical", "f"⟩]).length
      ≤ (filter_comments "medium"
        [⟨1, "t", "low", "f"⟩, ⟨2, "t", "medium", "f"⟩, ⟨3, "t", "weird", "f"⟩, ⟨4, "t", "critical", "f"⟩]).length := by
  have h := claim_C3_severity_filter "medium" (by decide)
    [⟨1, "t", "low", "f"⟩, ⟨2, "t", "medium", "f"⟩, ⟨3, "t", "weird", "f"⟩, ⟨4, "t", "critical", "f"⟩]
  exact ⟨h.1, h.2.1, h.2.2 "high" (by decide) (by decide)⟩

/-- C10: a threshold string that is not low/medium/high/critical after
lower-casing makes the filter behave exactly as threshold medium. -/
theorem claim_C10_unknown_threshold (T : String)
    (hT : pyLower T ∉ (["low", "medium", "high", "critical"] : List String))
    (comments : List ReviewComment) :
    filter_comments T comments = filter_comments "medium" comments := by
  simp only [filter_comments]
  have h2 : severityRank (pyLower T) = 2 := by
    rw [severityRank_eq_spec]
    simp only [List.mem_cons, List.not_mem_nil, or_false, not_or] at hT
    obtain ⟨ha, hb, hc, hd⟩ := hT
    unfold specSeverityRank
    rw [if_neg ha, if_neg hb, if_neg hc, if_neg hd]
  have h3 : severityRank (pyLower "medium") = 2 := by decide
  rw [h2, h3]

/-- C10 witness: the threshold string bogus acts as medium. -/
theorem claim_C10_unknown_threshold_witness :
    filter_comments "bogus" [⟨1, "t", "high", "f"⟩, ⟨2, "t", "low", "f"⟩]
      = filter_comments "medium" [⟨1, "t", "high", "f"⟩, ⟨2, "t", "low", "f"⟩] :=
  claim_C10_unknown_threshold "bogus" (by decide) [⟨1, "t", "high", "f"⟩, ⟨2, "t", "low", "f"⟩]

/-- C5: every comment the parser emits targets a line between 1 and the
file's line count, and a candidate line whose extracted number is out of
that range produces no comment (and the parser, being a total function,
raises no error). -/
theorem claim_C5_line_bounds (analysis content fp : String) (c : ReviewComment) :
    (c ∈ parse_analysis_to_comments analysis content fp →
      1 ≤ c.line ∧ c.line ≤ (pySplit content "\n").length)
    ∧ (∀ (rawLine : String) (n : Nat) (fp2 : String) (ds : List Char),
        firstDigitRun (partsOf rawLine).data = some ds →
        natOfDigits ds < 1 ∨ n < natOfDigits ds →
        parseOneLine rawLine n fp2 = none) := by
  constructor
  · intro h
    simp only [parse_analysis_to_comments] at h
    rw [List.mem_filterMap] at h
    obtain ⟨a, _, hpa⟩ := h
    obtain ⟨ds, _, h1, h2, hc⟩ := parseOneLine_inv hpa
    subst hc
    exact ⟨h1, h2⟩
  · exact fun rawLine n fp2 ds hds hout => parseOneLine_out_of_range rawLine n fp2 ds hds hout

/-- C5 witness: an in-range line yields a comment within bounds and an
out-of-range line yields none. -/
theorem claim_C5_line_bounds_witness :
    (1 ≤ ({ line := 2, text := "**MEDIUM**: x", severity := "medium", file_path := "f" } :
        ReviewComment).line
      ∧ ({ line := 2, text := "**MEDIUM**: x", severity := "medium", file_path := "f" } :
        ReviewComment).line ≤ (pySplit "a\nb\nc" "\n").length)
    ∧ parseOneLine "LINE_NUM: 99: far" 2 "f" = none := by
  have h := claim_C5_line_bounds "LINE_NUM: 2: x" "a\nb\nc" "f"
    { line := 2, text := "**MEDIUM**: x", severity := "medium", file_path := "f" }
  exact ⟨h.1 (by decide), h.2 "LINE_NUM: 99: far" 2 "f" ['9', '9'] (by decide) (by decide)⟩

/-- C9 counterexample: the model line `LINE_NUM: 5:| Severity: high` makes
the parser construct a comment whose issue description is empty (the
claim asserts every constructed comment has a non-empty issue description). -/
theorem claim_C9_counterexample :
    parse_analysis_to_comments "LINE_NUM: 5:| Severity: high" "a\nb\nc\nd\ne" "f.py"
      = [{ line := 5, text := "**HIGH**: ", severity := "high", file_path := "f.py" }]
    ∧ issueFrom (partsOf "LINE_NUM: 5:| Severity: high") = "" := by
  exact ⟨by decide, by decide⟩

/-- C9 (amended): every comment the parser constructs has a non-empty
comment text beginning with the bold severity marker, though the embedded
issue description itself may be empty. -/
theorem claim_C9_nonempty_text (rawLine : String) (numLines : Nat) (fp : String)
    (c : ReviewComment) (h : parseOneLine rawLine numLines fp = some c) :
    c.text ≠ "" ∧ pyStartsWith c.text "**" = true := by
  obtain ⟨ds, _, _, _, hc⟩ := parseOneLine_inv h
  subst hc
  exact ⟨commentTextOf_ne_empty _ _ _ _, commentTextOf_starts _ _ _ _⟩

/-- C9 witness: a concretely parsed comment has non-empty text. -/
theorem claim_C9_nonempty_text_witness :
    ({ line := 1, text := "**MEDIUM**: ok", severity := "medium", file_path := "f" } :
        ReviewComment).text ≠ ""
    ∧ pyStartsWith ((⟨1, "**MEDIUM**: ok", "medium", "f"⟩ : ReviewComment)).text "**" = true :=
  claim_C9_nonempty_text "LINE_NUM: 1: ok" 1 "f" _ (by decide)

/-- C4 counterexample: the line `LINE_NUM: 1: bad | Severity: bogus` makes
the parser store severity `bogus`, not `medium` (the claim asserts an
unrecognized severity value is stored as medium). -/
theorem claim_C4_counterexample :
    parse_analysis_to_comments "LINE_NUM: 1: bad | Severity: bogus" "x" "a.py"
      = [{ line := 1, text := "**BOGUS**: bad", severity := "bogus", file_path := "a.py" }]
    ∧ ({ line := 1, text := "**BOGUS**: bad", severity := "bogus", file_path := "a.py" } :
        ReviewComment).severity ≠ "medium" := by
  exact ⟨by decide, by decide⟩

/-- C4 (amended): when the `Severity:` marker is absent the stored severity
is medium; when present, the extracted value is stored lower-cased as-is
even when it is outside the four recognized tokens (such values are merely
ranked as medium later, by the severity filter). -/
theorem claim_C4_severity_default (rawLine : String) (numLines : Nat) (fp : String)
    (c : ReviewComment) (h : parseOneLine rawLine numLines fp = some c) :
    c.severity = pyLower (severityFrom (pyStripS rawLine))
    ∧ (pyContains (pyStripS rawLine) "Severity:" = false → c.severity = "medium") := by
  obtain ⟨ds, _, _, _, hc⟩ := parseOneLine_inv h
  subst hc
  constructor
  · rfl
  · intro habs
    show pyLower (severityFrom (pyStripS rawLine)) = "medium"
    unfold severityFrom
    rw [habs]
    simp only [Bool.false_eq_true, if_false]
    decide

/-- C4 witness: a line with no severity marker is stored as medium. -/
theorem claim_C4_severity_default_witness :
    ({ line := 1, text := "**MEDIUM**: ok", severity := "medium", file_path := "f" } :
        ReviewComment).severity = pyLower (severityFrom (pyStripS "LINE_NUM: 1: ok"))
    ∧ ({ line := 1, text := "**MEDIUM**: ok", severity := "medium", file_path := "f" } :
        ReviewComment).severity = "medium" := by
  have h := claim_C4_severity_default "LINE_NUM: 1: ok" 1 "f"
    { line := 1, text := "**MEDIUM**: ok", severity := "medium", file_path := "f" } (by decide)
  exact ⟨h.1, h.2 (by decide)⟩

/-- C8 counterexample: on the line
`LINE_NUM: 5: use eval: dangerous | Severity: high` the description itself
contains a colon; the parser truncates it to `use eval`, while the claim
requires the full first segment minus the line prefix,
`use eval: dangerous`. -/
theorem claim_C8_counterexample :
    parse_analysis_to_comments "LINE_NUM: 5: use eval: dangerous | Severity: high"
        "a\nb\nc\nd\ne" "a.py"
      = [{ line := 5, text := "**HIGH**: use eval", severity := "high", file_path := "a.py" }]
    ∧ issueFrom (partsOf "LINE_NUM: 5: use eval: dangerous | Severity: high") = "use eval"
    ∧ specIssueC8 (partsOf "LINE_NUM: 5: use eval: dangerous | Severity: high")
        = "use eval: dangerous"
    ∧ issueFrom (partsOf "LINE_NUM: 5: use eval: dangerous | Severity: high")
        ≠ specIssueC8 (partsOf "LINE_NUM: 5: use eval: dangerous | Severity: high") := by
  exact ⟨by decide, by decide, by decide, by decide⟩

/-- C8 (amended): the issue description is the text strictly between the
first and second colons of the first pipe-delimited segment, trimmed, when
the segment contains a colon (so any leading text before the first colon is
dropped and the description is truncated at a further colon); otherwise the
whole segment verbatim, untrimmed — and the constructed comment text embeds
exactly this extraction. -/
theorem claim_C8_issue_extraction :
    (∀ parts : String, issueFrom parts = specIssueAmended parts)
    ∧ ∀ (rawLine : String) (numLines : Nat) (fp : String) (c : ReviewComment),
        parseOneLine rawLine numLines fp = some c →
        c.text = commentTextOf (severityFrom (pyStripS rawLine))
          (specIssueAmended (partsOf rawLine)) (solutionFrom (pyStripS rawLine)) fp := by
  constructor
  · exact issueFrom_eq_amended
  · intro rawLine numLines fp c h
    obtain ⟨ds, _, _, _, hc⟩ := parseOneLine_inv h
    subst hc
    show commentTextOf _ (issueFrom (partsOf rawLine)) _ _ = _
    rw [issueFrom_eq_amended]

/-- C8 witness: the two extraction rules agree on a concrete remainder and
a concretely parsed comment embeds the extraction. -/
theorem claim_C8_issue_extraction_witness :
    issueFrom "1: ok" = specIssueAmended "1: ok"
    ∧ ({ line := 1, text := "**MEDIUM**: ok", severity := "medium", file_path := "f" } :
        ReviewComment).text
      = commentTextOf (severityFrom (pyStripS "LINE_NUM: 1: ok"))
          (specIssueAmended (partsOf "LINE_NUM: 1: ok"))
          (solutionFrom (pyStripS "LINE_NUM: 1: ok")) "f" :=
  ⟨claim_C8_issue_extraction.1 "1: ok",
    claim_C8_issue_extraction.2 "LINE_NUM: 1: ok" 1 "f" _ (by decide)⟩

/-- C6 counterexample: when the failed model call's message itself contains
a newline followed by a LINE_NUM: finding, the substituted error string is
parsed and the per-file review is not empty (the claim asserts the result
is always the empty list on model failure). -/
theorem claim_C6_counterexample :
    review_code "low" (Except.error "\nLINE_NUM: 1: oops | Severity: high") "a.py" "x"
      = [{ line := 1, text := "**HIGH**: oops", severity := "high", file_path := "a.py" }]
    ∧ review_code "low" (Except.error "\nLINE_NUM: 1: oops | Severity: high") "a.py" "x"
      ≠ [] := by
  exact ⟨by decide, by decide⟩

/-- C6 (amended): a failed model call is caught — the per-file review is a
total function of the failure, never propagating it — and it returns the
empty comment list whenever the failure message contains no newline (the
substituted single-line error string can never qualify as a finding). -/
theorem claim_C6_model_failure_isolated (comment_threshold file_path content e : String)
    (h : '\n' ∉ e.data) :
    review_code comment_threshold (Except.error e) file_path content = [] := by
  show filter_comments comment_threshold
    (parse_analysis_to_comments (analyze_code (Except.error e)) content file_path) = []
  have ha : analyze_code (Except.error e) = "Error analyzing code: " ++ e := rfl
  rw [ha, parse_error_string e file_path content h]
  rfl

/-- C6 witness: a newline-free failure message yields the empty list. -/
theorem claim_C6_model_failure_isolated_witness :
    review_code "medium" (Except.error "boom") "a.py" "line1\nline2" = [] :=
  claim_C6_model_failure_isolated "medium" "a.py" "line1\nline2" "boom" (by decide)

/-- C7: the file summary is posted exactly when the filtered comment list
has at least 5 entries, and the posted text is the specification's summary:
a heading naming the file, the total issue count, and one line per non-zero
severity bucket in the order critical, high, medium, low. -/
theorem claim_C7_summary_threshold (file_path : String) (comments : List ReviewComment) :
    (summaryPostsForFile file_path comments ≠ [] ↔ 5 ≤ comments.length)
    ∧ summaryPostsForFile file_path comments
      = (if 5 ≤ comments.length then
          [specFileSummary file_path comments.length (countSev "critical" comments)
            (countSev "high" comments) (countSev "medium" comments)
            (countSev "low" comments)]
        else []) := by
  constructor
  · unfold summaryPostsForFile
    split
    · next h5 => simp [h5]
    · next h5 => simp [h5]
  · unfold summaryPostsForFile
    split
    · rw [generate_summary_eq_spec]
    · rfl

/-- C7 witness: five filtered comments trigger the summary post, four do
not. -/
theorem claim_C7_summary_threshold_witness :
    summaryPostsForFile "m.py"
        [⟨1, "t", "high", "m.py"⟩, ⟨2, "t", "high", "m.py"⟩, ⟨3, "t", "critical", "m.py"⟩,
          ⟨4, "t", "medium", "m.py"⟩, ⟨5, "t", "high", "m.py"⟩] ≠ []
    ∧ summaryPostsForFile "m.py"
        [⟨1, "t", "high", "m.py"⟩, ⟨2, "t", "high", "m.py"⟩, ⟨3, "t", "critical", "m.py"⟩,
          ⟨4, "t", "medium", "m.py"⟩] = [] := by
  constructor
  · exact (claim_C7_summary_threshold "m.py"
      [⟨1, "t", "high", "m.py"⟩, ⟨2, "t", "high", "m.py"⟩, ⟨3, "t", "critical", "m.py"⟩,
        ⟨4, "t", "medium", "m.py"⟩, ⟨5, "t", "high", "m.py"⟩]).1.mpr (by decide)
  · rw [(claim_C7_summary_threshold "m.py"
      [⟨1, "t", "high", "m.py"⟩, ⟨2, "t", "high", "m.py"⟩, ⟨3, "t", "critical", "m.py"⟩,
        ⟨4, "t", "medium", "m.py"⟩]).2]
    decide

/-- C1: a request whose deduplication identity is already in the ledger at
cycle start is skipped — the whole cycle behaves as if the request were not
in the batch, and in particular it is never reviewed — and every request
whose review returns without an exception (even with zero posted comments)
has its identity in the ledger at the end of the cycle. -/
theorem claim_C1_dedup_skip_and_mark (md5hex : String → String)
    (review : PullRequest → Except (List String × String) (List String))
    (ledger : List String) (active_prs : List PullRequest) (pr : PullRequest)
    (hmem : pr ∈ active_prs) :
    (get_pr_hash md5hex pr.repository_id pr.pull_request_id ∈ ledger →
      process_all_active_prs md5hex review ledger active_prs
        = process_all_active_prs md5hex review ledger
            (active_prs.filter (fun q => q != pr))
      ∧ pr ∉ (process_all_active_prs md5hex review ledger active_prs).reviews)
    ∧ (∀ cs, review pr = Except.ok cs →
      get_pr_hash md5hex pr.repository_id pr.pull_request_id
        ∈ (process_all_active_prs md5hex review ledger active_prs).reviewed_prs) := by
  constructor
  · intro hin
    have hrun := foldl_filter_skip md5hex review pr active_prs
      { reviewed_prs := ledger, reviews := [], posts := [], processed_count := 0, saves := [] }
      hin
    constructor
    · simp only [process_all_active_prs]
      rw [hrun]
    · intro habs
      have habs2 : pr ∈ ((active_prs.filter (fun q => q != pr)).foldl
          (processOnePr md5hex review)
          { reviewed_prs := ledger, reviews := [], posts := [], processed_count := 0,
            saves := [] }).reviews := by
        rw [← hrun]
        exact habs
      rcases foldl_reviews_origin md5hex review _ _ pr habs2 with h1 | h2
      · exact absurd h1 (List.not_mem_nil pr)
      · have hpr := (List.mem_filter.mp h2).2
        simp at hpr
  · intro cs hok
    exact foldl_added_of_ok md5hex review active_prs
      { reviewed_prs := ledger, reviews := [], posts := [], processed_count := 0, saves := [] }
      pr cs hmem hok

/-- C1 witness: with the identity of request 1 pre-seeded in the ledger,
the cycle over two requests skips request 1 entirely; request 2's review
returns zero posts and its identity is still added. -/
theorem claim_C1_dedup_skip_and_mark_witness :
    (process_all_active_prs id (fun _ => Except.ok []) ["r_1"] [⟨"r", 1⟩, ⟨"r", 2⟩]
      = process_all_active_prs id (fun _ => Except.ok []) ["r_1"]
          (([⟨"r", 1⟩, ⟨"r", 2⟩] : List PullRequest).filter (fun q => q != ⟨"r", 1⟩))
      ∧ (⟨"r", 1⟩ : PullRequest) ∉ (process_all_active_prs id (fun _ => Except.ok [])
          ["r_1"] [⟨"r", 1⟩, ⟨"r", 2⟩]).reviews)
    ∧ get_pr_hash id "r" 2 ∈ (process_all_active_prs id (fun _ => Except.ok [])
        ["r_1"] [⟨"r", 1⟩, ⟨"r", 2⟩]).reviewed_prs := by
  have h1 := claim_C1_dedup_skip_and_mark id (fun _ => Except.ok []) ["r_1"]
    [⟨"r", 1⟩, ⟨"r", 2⟩] ⟨"r", 1⟩ (by decide)
  have h2 := claim_C1_dedup_skip_and_mark id (fun _ => Except.ok []) ["r_1"]
    [⟨"r", 1⟩, ⟨"r", 2⟩] ⟨"r", 2⟩ (by decide)
  exact ⟨h1.1 (by decide), h2.2 [] rfl⟩

/-- C2: a per-request exception is absorbed — the request's identity is not
added to the ledger (if no other same-identity request of the batch
succeeds and it was not there at cycle start), the remaining requests of
the batch are still processed, and the ledger is persisted exactly once,
after the batch. -/
theorem claim_C2_error_retry (md5hex : String → String)
    (review : PullRequest → Except (List String × String) (List String))
    (ledger : List String) (active_prs : List PullRequest) (pr : PullRequest)
    (hfresh : get_pr_hash md5hex pr.repository_id pr.pull_request_id ∉ ledger) :
    ((∀ q ∈ active_prs, get_pr_hash md5hex q.repository_id q.pull_request_id
        = get_pr_hash md5hex pr.repository_id pr.pull_request_id →
        (review q).isOk = false) →
      get_pr_hash md5hex pr.repository_id pr.pull_request_id
        ∉ (process_all_active_prs md5hex review ledger active_prs).reviewed_prs)
    ∧ (pr ∈ active_prs →
      (∀ q ∈ active_prs, get_pr_hash md5hex q.repository_id q.pull_request_id
        = get_pr_hash md5hex pr.repository_id pr.pull_request_id → q = pr) →
      pr ∈ (process_all_active_prs md5hex review ledger active_prs).reviews)
    ∧ (process_all_active_prs md5hex review ledger active_prs).saves
      = [(process_all_active_prs md5hex review ledger active_prs).reviewed_prs] := by
  refine ⟨?_, ?_, ?_⟩
  · intro herr
    exact foldl_not_added md5hex review active_prs
      { reviewed_prs := ledger, reviews := [], posts := [], processed_count := 0, saves := [] }
      _ hfresh herr
  · intro hmem huniq
    exact foldl_reviews_of_fresh md5hex review active_prs
      { reviewed_prs := ledger, reviews := [], posts := [], processed_count := 0, saves := [] }
      pr hmem hfresh huniq
  · show ((active_prs.foldl (processOnePr md5hex review)
        { reviewed_prs := ledger, reviews := [], posts := [], processed_count := 0,
          saves := [] }).saves ++ _) = _
    rw [foldl_saves]
    rfl

/-- C2 witness: request 1 raises, request 2 succeeds; request 1's identity
is absent from the final ledger, request 2 is still processed, and exactly
one ledger snapshot is persisted. -/
theorem claim_C2_error_retry_witness :
    get_pr_hash id "r" 1 ∉ (process_all_active_prs id
        (fun q => if q.pull_request_id == 1 then Except.error ([], "x") else Except.ok [])
        [] [⟨"r", 1⟩, ⟨"r", 2⟩]).reviewed_prs
    ∧ (⟨"r", 2⟩ : PullRequest) ∈ (process_all_active_prs id
        (fun q => if q.pull_request_id == 1 then Except.error ([], "x") else Except.ok [])
        [] [⟨"r", 1⟩, ⟨"r", 2⟩]).reviews
    ∧ (process_all_active_prs id
        (fun q => if q.pull_request_id == 1 then Except.error ([], "x") else Except.ok [])
        [] [⟨"r", 1⟩, ⟨"r", 2⟩]).saves
      = [(process_all_active_prs id
        (fun q => if q.pull_request_id == 1 then Except.error ([], "x") else Except.ok [])
        [] [⟨"r", 1⟩, ⟨"r", 2⟩]).reviewed_prs] := by
  have hA := claim_C2_error_retry id
    (fun q => if q.pull_request_id == 1 then Except.error ([], "x") else Except.ok [])
    [] [⟨"r", 1⟩, ⟨"r", 2⟩] ⟨"r", 1⟩ (by decide)
  have hB := claim_C2_error_retry id
    (fun q => if q.pull_request_id == 1 then Except.error ([], "x") else Except.ok [])
    [] [⟨"r", 1⟩, ⟨"r", 2⟩] ⟨"r", 2⟩ (by decide)
  exact ⟨hA.1 (by decide), hB.2.1 (by decide) (by decide), hA.2.2⟩
